import Mathlib

/-!
Verification of the Bulk-Image-Resizer repository (resizer.py, config.py).

Shallow embedding conventions:
* Python ints are `Nat` (pixel dimensions, counters) or `Int` (crop-box
  coordinates, which Python could in principle make negative).
* Python float arithmetic on ratios (`width / img.width`, `img.width / img.height`,
  `target_size[0] / target_size[1]`) is idealized as exact rational arithmetic;
  `int(x)` on a nonnegative float is truncation toward zero, i.e. the floor,
  so `int(a * (b / c))` is embedded as the integer floor of `a * b / c`.
  Python `//` is floor division (`Int.fdiv`).
* Python strings are Lean `String`; Python `str.lower`/`str.upper` act
  ASCII-wise, matching `Char.toLower`/`Char.toUpper` on ASCII input.
* Optional arguments default to `none`; Python truthiness of an optional int
  (`if width:`) treats both `None` and `0` as false, and truthiness of an
  optional string treats `None` and `""` as false.
-/

/-! ## config.py -/

/-- config.py `SUPPORTED_FORMATS` (a Python set literal; iteration order of a
set is unspecified, we keep the literal's insertion order — no claim depends
on the order across extensions). -/
def SUPPORTED_FORMATS : List String :=
  [".jpg", ".jpeg", ".png", ".gif", ".bmp", ".tiff", ".webp", ".ico"]

/-- config.py `OUTPUT_FORMATS` dict together with the `.get(output_format, '.jpg')`
lookup performed in `generate_output_filename`: a literal dict embedded as the
lookup function it is used as. -/
def OUTPUT_FORMATS_get (fmt : String) : String :=
  if fmt = "JPEG" then ".jpg"
  else if fmt = "PNG" then ".png"
  else if fmt = "WEBP" then ".webp"
  else if fmt = "BMP" then ".bmp"
  else if fmt = "GIF" then ".gif"
  else ".jpg"

/-! ## Python string / pathlib primitives -/

/-- Python `str.upper()` (ASCII). -/
def strUpper (s : String) : String := ⟨s.data.map Char.toUpper⟩

/-- Python `str.lower()` (ASCII). -/
def strLower (s : String) : String := ⟨s.data.map Char.toLower⟩

/-- `pathlib` glob pattern `*{ext}` matches exactly the names ending in `ext`
(case-sensitively). -/
def strEndsWith (s post : String) : Bool := post.data.isSuffixOf s.data

/-- Index of the last `'.'` in a character list (Python `str.rfind('.')`),
`none` when absent. -/
def rfindDot (cs : List Char) : Option Nat :=
  match (cs.reverse).findIdx? (fun c => c == '.') with
  | some j => some (cs.length - 1 - j)
  | none => none

/-- `pathlib.PurePath.suffix`: the extension from the last dot, but only when
that dot is neither the first nor the last character of the name. -/
def pathSuffix (name : String) : String :=
  match rfindDot name.data with
  | some i => if 0 < i ∧ i + 1 < name.data.length then ⟨name.data.drop i⟩ else ""
  | none => ""

/-- `pathlib.PurePath.stem`: the final component without its `pathSuffix`. -/
def pathStem (name : String) : String :=
  match rfindDot name.data with
  | some i => if 0 < i ∧ i + 1 < name.data.length then ⟨name.data.take i⟩ else name
  | none => name

/-! ## Decimal formatting: Python `f"{counter:04d}"` -/

/-- The ASCII digit character for `d < 10`. -/
def digitChar (d : Nat) : Char := Char.ofNat (48 + d)

/-- Decimal digits of `n`, most significant first (fuel-structured so the
kernel can evaluate it; `decDigits` instantiates the fuel). -/
def decDigitsAux (fuel : Nat) (n : Nat) : List Char :=
  match fuel with
  | 0 => []
  | fuel + 1 =>
    if n < 10 then [digitChar n]
    else decDigitsAux fuel (n / 10) ++ [digitChar (n % 10)]

/-- Decimal digits of `n`, most significant first. -/
def decDigits (n : Nat) : List Char := decDigitsAux (n + 1) n

/-- Python `f"{n:04d}"`: decimal digits of `n` left-padded with `'0'` to at
least four characters. -/
def pad4 (n : Nat) : List Char :=
  List.replicate (4 - (decDigits n).length) '0' ++ decDigits n

/-- `pad4` as a string. -/
def pad4Str (n : Nat) : String := ⟨pad4 n⟩

/-! ## resizer.py: target-size resolution (resize_image, lines 52-65) -/

/-- Python truthiness of an optional int: `None` and `0` are falsy. -/
def truthy : Option Nat → Bool
  | none => false
  | some n => n != 0

/-- resizer.py lines 52-65: resolve the requested width/height against the
natural size `(w, h)`.  `int(img.height * (width / img.width))` is the floor
of the exact ratio, i.e. Nat division `h * width / w` (float idealization,
see header). -/
def targetSize (w h : Nat) (rw rh : Option Nat) : Nat × Nat :=
  if truthy rw && truthy rh then (rw.getD 0, rh.getD 0)
  else if truthy rw then (rw.getD 0, h * rw.getD 0 / w)
  else if truthy rh then (w * rh.getD 0 / h, rh.getD 0)
  else (w, h)

/-! ## fit mode: PIL.Image.thumbnail geometry (resizer.py lines 68-71)

The repository delegates `fit` to the external Pillow call
`img.thumbnail(target_size, ...)`.  The size computation of
`PIL.Image.Image.thumbnail` is embedded here: floor/ceil candidate selection
by aspect error, clamped to at least 1, and an early return when the image
already fits inside the target. -/

/-- Pillow's `round_aspect(number, key)`:
`max(min(math.floor(number), math.ceil(number), key=key), 1)`.
Python `min(a, b, key)` returns the first argument on ties. -/
def round_aspect (number : ℚ) (key : ℤ → ℚ) : ℤ :=
  max (if key ⌊number⌋ ≤ key ⌈number⌉ then ⌊number⌋ else ⌈number⌉) 1

/-- `PIL.Image.Image.thumbnail` size computation for natural size `(w, h)` and
target `(tx, ty)`.  (In Python, degenerate zero dimensions would raise
`ZeroDivisionError`; all claims assume positive sizes.) -/
def fitSize (w h tx ty : Nat) : Nat × Nat :=
  if w ≤ tx ∧ h ≤ ty then (w, h)
  else
    let aspect : ℚ := (w : ℚ) / (h : ℚ)
    if aspect ≤ (tx : ℚ) / (ty : ℚ) then
      let x := round_aspect ((ty : ℚ) * aspect) (fun n => |aspect - (n : ℚ) / aspect|)
      (x.toNat, ty)
    else
      let y := round_aspect ((tx : ℚ) / aspect)
        (fun n => if n = 0 then 0 else |aspect - (tx : ℚ) / (n : ℚ)|)
      (tx, y.toNat)

/-! ## fill mode: crop-box computation (resizer.py lines 73-89) -/

/-- A crop rectangle in source pixel space, as passed to `img.crop`.
Coordinates are integers (Python ints may be negative, which is why the
in-bounds property is a claim and not a typing fact). -/
structure CropBox where
  left : Int
  top : Int
  right : Int
  bottom : Int
deriving DecidableEq

/-- resizer.py lines 73-89 (`fill` branch): compare `img_ratio = w / h`
with `target_ratio = tw / th` (cross-multiplied exact-rational comparison),
crop the wider dimension centered, then resize the crop to exactly `(tw, th)`.
`int(img.height * target_ratio)` is `Int.ediv (h * tw) th` (floor of a
nonnegative value); Python `//` is `Int.fdiv`. -/
def fillPlan (w h tw th : Nat) : CropBox × (Nat × Nat) :=
  if (tw : ℤ) * h < (w : ℤ) * th then
    let new_width : ℤ := Int.ediv ((h : ℤ) * tw) th
    let offset : ℤ := Int.fdiv ((w : ℤ) - new_width) 2
    (⟨offset, 0, offset + new_width, (h : ℤ)⟩, (tw, th))
  else
    let new_height : ℤ := Int.ediv ((w : ℤ) * th) tw
    let offset : ℤ := Int.fdiv ((h : ℤ) - new_height) 2
    (⟨0, offset, (w : ℤ), offset + new_height⟩, (tw, th))

/-! ## resize_image: the geometry slice (resizer.py lines 38-135)

Decoding, resampling and encoding are the external Pillow codec; the geometry
decisions of `resize_image` (target size, mode dispatch, crop box, final size)
are embedded.  `stretch` resizes to exactly the target; `pad` fits and then
pads to exactly the target via `ImageOps.pad` (external). -/

/-- The geometry produced for one image: an optional crop box applied first,
and the final pixel size handed to the resampler. -/
structure GeometryPlan where
  cropBox : Option CropBox
  finalSize : Nat × Nat
deriving DecidableEq

/-- Mode dispatch of `resize_image` (lines 68-101).  An unrecognized mode
raises `ValueError(f"Unknown mode: {mode}")`, which the surrounding
`try/except` turns into a failure result carrying `str(e)`. -/
def resizeGeometry (w h : Nat) (rw rh : Option Nat) (mode : String) :
    Except String GeometryPlan :=
  let ts := targetSize w h rw rh
  if mode = "fit" then .ok ⟨none, fitSize w h ts.1 ts.2⟩
  else if mode = "fill" then .ok ⟨some (fillPlan w h ts.1 ts.2).1, (fillPlan w h ts.1 ts.2).2⟩
  else if mode = "stretch" then .ok ⟨none, ts⟩
  else if mode = "pad" then .ok ⟨none, ts⟩
  else .error ("Unknown mode: " ++ mode)

/-- The per-image result dict of `resize_image`: `success`, optional `error`
message, and the new pixel size on success (lines 123-135). -/
structure ResizeResult where
  success : Bool
  error : Option String
  newSize : Option (Nat × Nat)
deriving DecidableEq

/-- `resize_image` restricted to its geometry-deciding behavior (decode
assumed to succeed with natural size `(w, h)`). -/
def resize_image (w h : Nat) (rw rh : Option Nat) (mode : String) : ResizeResult :=
  match resizeGeometry w h rw rh mode with
  | .ok g => ⟨true, none, some g.finalSize⟩
  | .error e => ⟨false, some e, none⟩

/-! ## generate_output_filename (resizer.py lines 137-171) -/

/-- The stem built by `generate_output_filename`: `prefix`, original stem,
`suffix`, then `_{counter:04d}` when a counter is given.  (The code appends a
part only when the string is nonempty; appending `""` is the identity, so the
unconditional concatenation is the same function.) -/
def genStem (stem pre suf : String) (counter : Option Nat) : String :=
  pre ++ stem ++ suf ++ (match counter with | some c => "_" ++ pad4Str c | none => "")

/-- Python truthiness of the optional `output_format` string argument. -/
def truthyStr : Option String → Bool
  | none => false
  | some s => s != ""

/-- resizer.py lines 137-171: the output file name (final component).  The
extension is the `OUTPUT_FORMATS` table entry when an output format is given
(default `.jpg`), otherwise the original extension lower-cased. -/
def generate_output_filename (name pre suf : String) (counter : Option Nat)
    (fmt : Option String) : String :=
  genStem (pathStem name) pre suf counter ++
    (if truthyStr fmt then OUTPUT_FORMATS_get (fmt.getD "") else strLower (pathSuffix name))

/-! ## process_folder (resizer.py lines 173-276)

The batch loop is embedded as a fold over the discovered files.  For each file
the environment is abstracted into the `FileSpec` fields: whether the
destination path already exists at processing time, and the outcome the codec
produces for it (`none` = `resize_image` succeeds, `some msg` = it returns
`success=False` with message `msg`).  `codecCalls` and `written` are
observation fields recording which inputs reached `resize_image` and the stems
of the outputs successfully written. -/

/-- One discovered input file together with its abstracted environment. -/
structure FileSpec where
  name : String
  destExists : Bool
  outcome : Option String
deriving DecidableEq

/-- The mutable state of one `process_folder` run: the sequential-naming
`counter` (initialized to 1), the `self.processed` / `self.failed` counters and
`self.errors` list, plus the two observation fields. -/
structure BatchState where
  counter : Nat
  processed : Nat
  failed : Nat
  errors : List (String × String)
  codecCalls : List String
  written : List String
deriving DecidableEq

/-- State at the start of a run (fresh `ImageResizer` instance, `counter = 1`). -/
def initState : BatchState := ⟨1, 0, 0, [], [], []⟩

/-- The body of the `for img_path in image_files` loop (lines 222-266):
compute the output name (counter passed only when `sequential`), skip when the
destination exists and overwrite is off, otherwise run the codec and record
success (increment `processed` and `counter`) or failure (increment `failed`,
append to `errors`). -/
def processOne (pre suf : String) (sequential overwrite : Bool)
    (st : BatchState) (f : FileSpec) : BatchState :=
  let stem := genStem (pathStem f.name) pre suf (if sequential then some st.counter else none)
  if f.destExists && !overwrite then st
  else
    match f.outcome with
    | none =>
      { st with processed := st.processed + 1, counter := st.counter + 1,
                codecCalls := st.codecCalls ++ [f.name], written := st.written ++ [stem] }
    | some e =>
      { st with failed := st.failed + 1, errors := st.errors ++ [(f.name, e)],
                codecCalls := st.codecCalls ++ [f.name] }

/-- `process_folder` on an already-discovered file list. -/
def process_folder (pre suf : String) (sequential overwrite : Bool)
    (files : List FileSpec) : BatchState :=
  files.foldl (processOne pre suf sequential overwrite) initState

/-! ## Discovery (resizer.py lines 200-209)

For each supported extension the code globs `*{ext}` and then `*{ext.upper()}`
over the input folder; a glob `*{ext}` matches exactly the names that end in
`ext`, case-sensitively.  `files` is the directory listing. -/

/-- The discovered image list: for each extension, the names ending in the
lower-case extension, then the names ending in its upper-cased form. -/
def discoverImages (files : List String) : List String :=
  SUPPORTED_FORMATS.foldl
    (fun acc ext =>
      (acc ++ files.filter (fun n => strEndsWith n ext)) ++
        files.filter (fun n => strEndsWith n (strUpper ext))) []

/-! ## Helper lemmas: strings and decimal formatting -/

theorem string_data_append (a b : String) : (a ++ b).data = a.data ++ b.data := rfl

/-- The digit value read back from an ASCII digit character. -/
def digitVal (c : Char) : Nat := c.toNat - 48

/-- The number denoted by a list of decimal digit characters. -/
def valOf (cs : List Char) : Nat := cs.foldl (fun a c => 10 * a + digitVal c) 0

theorem digitVal_digitChar : ∀ d, d < 10 → digitVal (digitChar d) = d := by decide

theorem decDigitsAux_fuel (f₁ : Nat) : ∀ f₂ n, n < f₁ → n < f₂ →
    decDigitsAux f₁ n = decDigitsAux f₂ n := by
  induction f₁ with
  | zero => omega
  | succ f₁ ih =>
    intro f₂ n h₁ h₂
    match f₂, h₂ with
    | f₂ + 1, _ =>
      show (if n < 10 then _ else _) = (if n < 10 then _ else _)
      by_cases hn : n < 10
      · simp [hn]
      · have hd : n / 10 < n := Nat.div_lt_self (by omega) (by omega)
        simp only [if_neg hn]
        rw [ih f₂ (n / 10) (by omega) (by omega)]

theorem decDigits_eq (n : Nat) : decDigits n =
    if n < 10 then [digitChar n] else decDigits (n / 10) ++ [digitChar (n % 10)] := by
  show (if n < 10 then _ else decDigitsAux n (n / 10) ++ _) = _
  by_cases hn : n < 10
  · simp [hn]
  · have hd : n / 10 < n := Nat.div_lt_self (by omega) (by omega)
    simp only [if_neg hn]
    rw [decDigitsAux_fuel n (n / 10 + 1) (n / 10) (by omega) (by omega)]
    rfl

theorem foldl_decDigits (n : Nat) : ∀ a : Nat,
    (decDigits n).foldl (fun a c => 10 * a + digitVal c) a
      = a * 10 ^ (decDigits n).length + n := by
  induction n using Nat.strong_induction_on with
  | _ n ih =>
    intro a
    rw [decDigits_eq]
    by_cases hn : n < 10
    · simp [hn, List.foldl, digitVal_digitChar n hn]
      ring
    · have hd : n / 10 < n := Nat.div_lt_self (by omega) (by omega)
      simp only [if_neg hn, List.foldl_append, List.length_append, List.foldl,
        List.length_cons, List.length_nil]
      rw [ih (n / 10) hd a, digitVal_digitChar (n % 10) (Nat.mod_lt n (by omega))]
      have : 10 ^ ((decDigits (n / 10)).length + (0 + 1))
          = 10 ^ (decDigits (n / 10)).length * 10 := by
        rw [Nat.zero_add, pow_succ]
      rw [this]
      have hmod := Nat.div_add_mod n 10
      ring_nf
      omega

theorem foldl_replicate_zeros (k : Nat) : ∀ a : Nat,
    (List.replicate k '0').foldl (fun a c => 10 * a + digitVal c) a = a * 10 ^ k := by
  induction k with
  | zero => simp
  | succ k ih =>
    intro a
    rw [List.replicate_succ, List.foldl_cons, ih]
    have : digitVal '0' = 0 := rfl
    rw [this, pow_succ]
    ring

theorem valOf_pad4 (n : Nat) : valOf (pad4 n) = n := by
  unfold valOf pad4
  rw [List.foldl_append, foldl_replicate_zeros, foldl_decDigits]
  simp

theorem pad4_injective {a b : Nat} (h : pad4 a = pad4 b) : a = b := by
  have := congrArg valOf h
  rwa [valOf_pad4, valOf_pad4] at this

theorem decDigits_length_le : ∀ k n : Nat, n < 10 ^ k → (decDigits n).length ≤ max k 1 := by
  intro k
  induction k with
  | zero =>
    intro n hn
    interval_cases n
    simp [decDigits_eq]
  | succ k ih =>
    intro n hn
    rw [decDigits_eq]
    by_cases h10 : n < 10
    · simp [h10]
    · have hdiv : n / 10 < 10 ^ k := by
        rw [Nat.div_lt_iff_lt_mul (by omega)]
        calc n < 10 ^ (k + 1) := hn
        _ = 10 ^ k * 10 := by rw [pow_succ]
      have := ih (n / 10) hdiv
      simp only [if_neg h10, List.length_append, List.length_cons, List.length_nil]
      have hk : 1 ≤ k := by
        by_contra hk0
        have : k = 0 := by omega
        subst this
        simp at hdiv
        omega
      omega

theorem pad4_length {n : Nat} (hn : n ≤ 9999) : (pad4 n).length = 4 := by
  have h := decDigits_length_le 4 n (by norm_num; omega)
  have h4 : (decDigits n).length ≤ 4 := by omega
  unfold pad4
  rw [List.length_append, List.length_replicate]
  omega

theorem genStem_data (s pre suf : String) (c : Nat) :
    (genStem s pre suf (some c)).data = (pre ++ s ++ suf).data ++ ('_' :: pad4 c) := rfl

/-- Two sequential stems built from different counters (both in `%04d` range)
are distinct, whatever the surrounding stems are. -/
theorem genStem_counter_inj {s₁ s₂ pre suf : String} {a b : Nat}
    (ha : a ≤ 9999) (hb : b ≤ 9999)
    (h : genStem s₁ pre suf (some a) = genStem s₂ pre suf (some b)) : a = b := by
  have hd := congrArg String.data h
  rw [genStem_data, genStem_data] at hd
  have hlen : ('_' :: pad4 a).length = ('_' :: pad4 b).length := by
    simp [pad4_length ha, pad4_length hb]
  have := (List.append_inj' hd hlen).2
  exact pad4_injective (by injection this)

/-! ## Claim C1: target-size resolution -/

/-- Claim C1 is false as stated: with natural size (1000, 999) and only
width 1 requested the code resolves the height to `int(999 * (1/1000)) = 0`.
The nearest integer to 999/1000 is 1, not the resolved 0, and the resolved
height is 0, contradicting the claimed 1-px minimum. -/
theorem C1_counterexample :
    targetSize 1000 999 (some 1) none = (1, 0)
  ∧ ¬ (|(999 * 1 / 1000 : ℚ) - (((targetSize 1000 999 (some 1) none).2 : ℕ) : ℚ)| ≤ 1 / 2)
  ∧ (targetSize 1000 999 (some 1) none).2 = 0 := by
  have h : targetSize 1000 999 (some 1) none = (1, 0) := by decide
  refine ⟨h, ?_, by rw [h]⟩
  rw [h]
  norm_num
  rw [abs_of_nonneg] <;> norm_num

/-- Claim C1 (amended): with positive natural size, when only a width is
requested the resolved target is `(width, ⌊natural_height * width / natural_width⌋)`
(truncation toward zero, not round-to-nearest), symmetrically when only a
height is requested; both-requested and neither-requested pass through.  No
1-px minimum is applied, so a scaled dimension can resolve to zero
(`C1_counterexample`). -/
theorem C1_target_size (w h rw rh : Nat) (hw : 0 < w) (hh : 0 < h)
    (hrw : 0 < rw) (hrh : 0 < rh) :
    targetSize w h (some rw) (some rh) = (rw, rh)
  ∧ targetSize w h (some rw) none = (rw, h * rw / w)
  ∧ targetSize w h none (some rh) = (w * rh / h, rh)
  ∧ targetSize w h none none = (w, h) := by
  have h1 : rw ≠ 0 := by omega
  have h2 : rh ≠ 0 := by omega
  refine ⟨?_, ?_, ?_, ?_⟩ <;> simp [targetSize, truthy, h1, h2]

/-- Witness instantiating `C1_target_size` at (1000, 999), width 1, height 7. -/
theorem C1_target_size_witness :
    ((0 : ℕ) < 1000 ∧ (0 : ℕ) < 999 ∧ (0 : ℕ) < 1 ∧ (0 : ℕ) < 7)
  ∧ (targetSize 1000 999 (some 1) (some 7) = (1, 7)
      ∧ targetSize 1000 999 (some 1) none = (1, 999 * 1 / 1000)
      ∧ targetSize 1000 999 none (some 7) = (1000 * 7 / 999, 7)
      ∧ targetSize 1000 999 none none = (1000, 999)) :=
  ⟨⟨by decide, by decide, by decide, by decide⟩,
    C1_target_size 1000 999 1 7 (by decide) (by decide) (by decide) (by decide)⟩

/-! ## Claim C5: output filename composition -/

/-- Claim C5: the generated stem is prefix + original-stem + suffix +
(when a counter is given) an underscore and the 4-digit zero-padded counter;
the extension follows the OUTPUT_FORMATS table (JPEG→.jpg, PNG→.png,
WEBP→.webp, BMP→.bmp, GIF→.gif, unknown→.jpg) when an output format is given,
otherwise the original extension lower-cased; and input "photo.JPG" with
prefix "resized_", empty suffix, format PNG yields "resized_photo.png". -/
theorem C5_output_filename :
    (∀ (name pre suf : String) (c : Nat),
        generate_output_filename name pre suf (some c) none
          = pre ++ pathStem name ++ suf ++ "_" ++ pad4Str c ++ strLower (pathSuffix name))
  ∧ (∀ (name pre suf : String),
        generate_output_filename name pre suf none none
          = pre ++ pathStem name ++ suf ++ strLower (pathSuffix name))
  ∧ (∀ (name pre suf : String) (c : Nat),
        generate_output_filename name pre suf (some c) (some "JPEG")
          = pre ++ pathStem name ++ suf ++ "_" ++ pad4Str c ++ ".jpg")
  ∧ (∀ (name pre suf : String),
        generate_output_filename name pre suf none (some "PNG")
          = pre ++ pathStem name ++ suf ++ ".png")
  ∧ (∀ (name pre suf : String),
        generate_output_filename name pre suf none (some "WEBP")
          = pre ++ pathStem name ++ suf ++ ".webp")
  ∧ (∀ (name pre suf : String),
        generate_output_filename name pre suf none (some "BMP")
          = pre ++ pathStem name ++ suf ++ ".bmp")
  ∧ (∀ (name pre suf : String),
        generate_output_filename name pre suf none (some "GIF")
          = pre ++ pathStem name ++ suf ++ ".gif")
  ∧ (∀ (name pre suf fmt : String), fmt ≠ "" →
        fmt ∉ (["JPEG", "PNG", "WEBP", "BMP", "GIF"] : List String) →
        generate_output_filename name pre suf none (some fmt)
          = pre ++ pathStem name ++ suf ++ ".jpg")
  ∧ generate_output_filename "photo.JPG" "resized_" "" none (some "PNG")
      = "resized_photo.png" := by
  refine ⟨?_, ?_, ?_, ?_, ?_, ?_, ?_, ?_, by decide⟩
  · intro name pre suf c
    simp [generate_output_filename, genStem, truthyStr, String.append_assoc]
  · intro name pre suf
    simp [generate_output_filename, genStem, truthyStr]
  · intro name pre suf c
    simp [generate_output_filename, genStem, truthyStr, OUTPUT_FORMATS_get,
      String.append_assoc]
  · intro name pre suf
    simp [generate_output_filename, genStem, truthyStr, OUTPUT_FORMATS_get]
  · intro name pre suf
    simp [generate_output_filename, genStem, truthyStr, OUTPUT_FORMATS_get]
  · intro name pre suf
    simp [generate_output_filename, genStem, truthyStr, OUTPUT_FORMATS_get]
  · intro name pre suf
    simp [generate_output_filename, genStem, truthyStr, OUTPUT_FORMATS_get]
  · intro name pre suf fmt hne hmem
    simp only [List.mem_cons, List.not_mem_nil, or_false, not_or] at hmem
    obtain ⟨m1, m2, m3, m4, m5⟩ := hmem
    simp [generate_output_filename, genStem, truthyStr, OUTPUT_FORMATS_get,
      hne, m1, m2, m3, m4, m5]

/-- Witness for the unknown-format branch of `C5_output_filename`. -/
theorem C5_output_filename_witness :
    ("TIFF" ≠ "" ∧ "TIFF" ∉ (["JPEG", "PNG", "WEBP", "BMP", "GIF"] : List String))
  ∧ generate_output_filename "photo.JPG" "x" "y" none (some "TIFF")
      = "x" ++ pathStem "photo.JPG" ++ "y" ++ ".jpg" :=
  ⟨⟨by decide, by decide⟩,
    C5_output_filename.2.2.2.2.2.2.2.1 "photo.JPG" "x" "y" "TIFF" (by decide) (by decide)⟩

/-! ## Claim C6: skip-if-exists frame property -/

/-- Claim C6: when the destination already exists and overwrite is disabled,
`process_folder` skips the file (`continue` before `resize_image`): the codec
is not invoked and the processed counter, failed counter, error list and
sequential counter are all unchanged by that file. -/
theorem C6_skip_frame (pre suf : String) (seq : Bool) (st : BatchState) (f : FileSpec)
    (hex : f.destExists = true) :
    processOne pre suf seq false st f = st
  ∧ (processOne pre suf seq false st f).codecCalls = st.codecCalls := by
  have h : processOne pre suf seq false st f = st := by
    simp [processOne, hex]
  exact ⟨h, by rw [h]⟩

/-- Witness instantiating `C6_skip_frame` on a concrete already-existing file. -/
theorem C6_skip_frame_witness :
    ((⟨"a.jpg", true, none⟩ : FileSpec).destExists = true)
  ∧ (processOne "p" "s" true false initState ⟨"a.jpg", true, none⟩ = initState
      ∧ (processOne "p" "s" true false initState ⟨"a.jpg", true, none⟩).codecCalls
          = initState.codecCalls) :=
  ⟨rfl, C6_skip_frame "p" "s" true initState ⟨"a.jpg", true, none⟩ rfl⟩

/-! ## Claim C7: failure recording and batch continuation -/

/-- Claim C7: over any batch, the final error list extends the initial one by
exactly the (filename, message) pairs of the non-skipped files whose codec run
failed, in discovery order; the processed and failed counters count exactly
the non-skipped successes and failures over the whole list — every file after
a failure is still accounted for, so one file's failure never aborts the
batch. -/
theorem C7_failures_recorded (pre suf : String) (seq ow : Bool)
    (files : List FileSpec) (st : BatchState) :
    (files.foldl (processOne pre suf seq ow) st).errors
      = st.errors ++ (files.filter
          (fun f => !(f.destExists && !ow) && f.outcome.isSome)).map
            (fun f => (f.name, f.outcome.getD ""))
  ∧ (files.foldl (processOne pre suf seq ow) st).processed
      = st.processed + (files.filter
          (fun f => !(f.destExists && !ow) && f.outcome.isNone)).length
  ∧ (files.foldl (processOne pre suf seq ow) st).failed
      = st.failed + (files.filter
          (fun f => !(f.destExists && !ow) && f.outcome.isSome)).length := by
  induction files generalizing st with
  | nil => simp
  | cons f fs ih =>
    by_cases hskip : (f.destExists && !ow) = true
    · have hp : processOne pre suf seq ow st f = st := by
        simp [processOne, hskip]
      obtain ⟨ih1, ih2, ih3⟩ := ih st
      simp only [List.foldl_cons, hp, List.filter_cons, hskip, Bool.not_true,
        Bool.false_and, if_neg (Bool.false_ne_true)]
      exact ⟨ih1, ih2, ih3⟩
    · have hns : (!(f.destExists && !ow)) = true := by
        simp only [Bool.not_eq_true] at hskip
        simp [hskip]
      have hor : f.destExists = false ∨ ow = true := by
        revert hskip
        cases f.destExists <;> cases ow <;> simp
      match hout : f.outcome with
      | none =>
        have hp : processOne pre suf seq ow st f
            = { st with
                  processed := st.processed + 1,
                  counter := st.counter + 1,
                  codecCalls := st.codecCalls ++ [f.name],
                  written := st.written ++ [genStem (pathStem f.name) pre suf
                    (if seq then some st.counter else none)] } := by
          rw [processOne]
          simp [hskip, hout]
        obtain ⟨ih1, ih2, ih3⟩ := ih (processOne pre suf seq ow st f)
        rw [List.foldl_cons] at *
        refine ⟨?_, ?_, ?_⟩
        · rw [ih1, hp]
          simp [List.filter_cons, hns, hout]
        · rw [ih2, hp]
          simp only [List.filter_cons, hns, hout]
          simp
          omega
        · rw [ih3, hp]
          simp [List.filter_cons, hns, hout]
      | some e =>
        have hp : processOne pre suf seq ow st f
            = { st with
                  failed := st.failed + 1,
                  errors := st.errors ++ [(f.name, e)],
                  codecCalls := st.codecCalls ++ [f.name] } := by
          rw [processOne]
          simp [hskip, hout]
        obtain ⟨ih1, ih2, ih3⟩ := ih (processOne pre suf seq ow st f)
        rw [List.foldl_cons] at *
        refine ⟨?_, ?_, ?_⟩
        · rw [ih1, hp]
          simp [List.filter_cons, hns, hout, List.append_assoc, hor]
        · rw [ih2, hp]
          simp [List.filter_cons, hns, hout, hor]
        · rw [ih3, hp]
          simp only [List.filter_cons, hns, hout]
          simp [hor]
          omega

/-! ## Claim C4: sequential naming -/

/-- The stems an all-success sequential run starting at counter `c` assigns
to `files`, in discovery order. -/
def expectedStems (pre suf : String) : Nat → List FileSpec → List String
  | _, [] => []
  | c, f :: fs => genStem (pathStem f.name) pre suf (some c) :: expectedStems pre suf (c + 1) fs

theorem expectedStems_length (pre suf : String) :
    ∀ (files : List FileSpec) (c : Nat),
    (expectedStems pre suf c files).length = files.length := by
  intro files
  induction files with
  | nil => intro c; rfl
  | cons f fs ih => intro c; simp [expectedStems, ih]

theorem expectedStems_getElem (pre suf : String) :
    ∀ (files : List FileSpec) (c i : Nat), i < files.length →
    ∃ f : FileSpec, files[i]? = some f
      ∧ (expectedStems pre suf c files)[i]?
          = some (genStem (pathStem f.name) pre suf (some (c + i))) := by
  intro files
  induction files with
  | nil => intro c i hi; simp at hi
  | cons f fs ih =>
    intro c i hi
    match i with
    | 0 => exact ⟨f, by simp, by simp [expectedStems]⟩
    | i + 1 =>
      obtain ⟨g, hg1, hg2⟩ := ih (c + 1) i (by simpa using hi)
      refine ⟨g, by simpa using hg1, ?_⟩
      have : c + (i + 1) = c + 1 + i := by omega
      rw [this]
      simpa [expectedStems] using hg2

theorem expectedStems_mem (pre suf : String) :
    ∀ (files : List FileSpec) (c : Nat) (x : String), x ∈ expectedStems pre suf c files →
    ∃ m, c ≤ m ∧ m < c + files.length ∧ ∃ s, x = genStem s pre suf (some m) := by
  intro files
  induction files with
  | nil => intro c x hx; simp [expectedStems] at hx
  | cons f fs ih =>
    intro c x hx
    rw [expectedStems, List.mem_cons] at hx
    rcases hx with hx | hx
    · exact ⟨c, le_refl c, by simp, pathStem f.name, hx⟩
    · obtain ⟨m, hm1, hm2, s, hs⟩ := ih (c + 1) x hx
      exact ⟨m, by omega, by simp at hm2 ⊢; omega, s, hs⟩

theorem expectedStems_pairwise (pre suf : String) :
    ∀ (files : List FileSpec) (c : Nat), 1 ≤ c → c + files.length ≤ 10000 →
    List.Pairwise (fun a b => a ≠ b) (expectedStems pre suf c files) := by
  intro files
  induction files with
  | nil => intro c _ _; exact List.Pairwise.nil
  | cons f fs ih =>
    intro c h1 h2
    rw [expectedStems, List.pairwise_cons]
    constructor
    · intro x hx heq
      obtain ⟨m, hm1, hm2, s, hs⟩ := expectedStems_mem pre suf fs (c + 1) x hx
      rw [hs] at heq
      have hc : c ≤ 9999 := by simp at h2; omega
      have hm : m ≤ 9999 := by simp at h2 hm2; omega
      have := genStem_counter_inj hc hm heq
      omega
    · exact ih (c + 1) (by omega) (by simp at h2 ⊢; omega)

/-- An all-success sequential run writes exactly the expected stems, starting
from the state's current counter. -/
theorem run_written_all_success (pre suf : String) (files : List FileSpec) :
    ∀ st : BatchState, (∀ f ∈ files, f.destExists = false ∧ f.outcome = none) →
    (files.foldl (processOne pre suf true false) st).written
      = st.written ++ expectedStems pre suf st.counter files := by
  induction files with
  | nil => intro st _; simp [expectedStems]
  | cons f fs ih =>
    intro st hall
    obtain ⟨hde, hout⟩ := hall f (by simp)
    have hrest : ∀ g ∈ fs, g.destExists = false ∧ g.outcome = none :=
      fun g hg => hall g (by simp [hg])
    have hp : processOne pre suf true false st f
        = { st with
              processed := st.processed + 1,
              counter := st.counter + 1,
              codecCalls := st.codecCalls ++ [f.name],
              written := st.written
                ++ [genStem (pathStem f.name) pre suf (some st.counter)] } := by
      rw [processOne]
      simp [hde, hout]
    rw [List.foldl_cons, hp, ih _ hrest]
    simp [expectedStems, List.append_assoc]

/-- Claim C4: with sequential naming and overwrite off, an all-success run
over `N ≤ 9999` files writes `N` output stems; the `i`-th written stem (in
discovery order) ends in `_` followed by the 4-digit zero-padded counter
`i+1`; all written stems are pairwise distinct; and, per file, the sequence
counter is advanced exactly on success — never on a skip or a failure. -/
theorem C4_sequential_naming (pre suf : String) (files : List FileSpec)
    (hall : ∀ f ∈ files, f.destExists = false ∧ f.outcome = none)
    (hlen : files.length ≤ 9999) :
    (process_folder pre suf true false files).written.length = files.length
  ∧ (∀ i, i < files.length →
      ∃ s, (process_folder pre suf true false files).written[i]? = some s
        ∧ ('_' :: pad4 (i + 1)) <:+ s.data)
  ∧ List.Pairwise (fun a b => a ≠ b) (process_folder pre suf true false files).written
  ∧ (∀ (st : BatchState) (f : FileSpec),
      (processOne pre suf true false st f).counter
        = if f.destExists then st.counter
          else if f.outcome.isNone then st.counter + 1 else st.counter) := by
  have hwr : (process_folder pre suf true false files).written
      = expectedStems pre suf 1 files := by
    rw [process_folder, run_written_all_success pre suf files initState hall]
    rfl
  refine ⟨?_, ?_, ?_, ?_⟩
  · rw [hwr, expectedStems_length]
  · intro i hi
    obtain ⟨f, _, hg⟩ := expectedStems_getElem pre suf files 1 i hi
    refine ⟨genStem (pathStem f.name) pre suf (some (1 + i)), by rw [hwr]; exact hg, ?_⟩
    have : 1 + i = i + 1 := by omega
    rw [this, genStem_data]
    exact List.suffix_append _ _
  · rw [hwr]
    exact expectedStems_pairwise pre suf files 1 (le_refl 1) (by omega)
  · intro st f
    by_cases hde : f.destExists
    · simp [processOne, hde]
    · match hout : f.outcome with
      | none => simp [processOne, hde, hout]
      | some e => simp [processOne, hde, hout]

/-- Witness instantiating `C4_sequential_naming` on a concrete two-file batch. -/
theorem C4_sequential_naming_witness :
    ((∀ f ∈ ([⟨"a.jpg", false, none⟩, ⟨"b.png", false, none⟩] : List FileSpec),
        f.destExists = false ∧ f.outcome = none)
      ∧ ([⟨"a.jpg", false, none⟩, ⟨"b.png", false, none⟩] : List FileSpec).length ≤ 9999)
  ∧ ((process_folder "p" "s" true false
        [⟨"a.jpg", false, none⟩, ⟨"b.png", false, none⟩]).written.length
          = ([⟨"a.jpg", false, none⟩, ⟨"b.png", false, none⟩] : List FileSpec).length
    ∧ (∀ i, i < ([⟨"a.jpg", false, none⟩, ⟨"b.png", false, none⟩] : List FileSpec).length →
        ∃ s, (process_folder "p" "s" true false
            [⟨"a.jpg", false, none⟩, ⟨"b.png", false, none⟩]).written[i]? = some s
          ∧ ('_' :: pad4 (i + 1)) <:+ s.data)
    ∧ List.Pairwise (fun a b => a ≠ b)
        (process_folder "p" "s" true false
          [⟨"a.jpg", false, none⟩, ⟨"b.png", false, none⟩]).written
    ∧ (∀ (st : BatchState) (f : FileSpec),
        (processOne "p" "s" true false st f).counter
          = if f.destExists then st.counter
            else if f.outcome.isNone then st.counter + 1 else st.counter)) :=
  ⟨⟨by decide, by decide⟩,
    C4_sequential_naming "p" "s" [⟨"a.jpg", false, none⟩, ⟨"b.png", false, none⟩]
      (by decide) (by decide)⟩

/-! ## Claim C9: discovery extension matching -/

/-- Claim C9 is false as stated: `.Jpg` is a case variant of the allowed
`.jpg` (it lower-cases to `.jpg`, and `a.Jpg` does end in `.Jpg`), yet the
file `a.Jpg` is not discovered — the code only globs the all-lowercase and
all-uppercase spellings of each extension. -/
theorem C9_counterexample :
    strLower ".Jpg" ∈ SUPPORTED_FORMATS
  ∧ strEndsWith "a.Jpg" ".Jpg" = true
  ∧ "a.Jpg" ∉ discoverImages ["a.Jpg"] := by
  refine ⟨by decide, by decide, by decide⟩

theorem mem_discover_foldl (files : List String) :
    ∀ (exts acc : List String) (x : String),
    (x ∈ exts.foldl
        (fun acc ext =>
          (acc ++ files.filter (fun n => strEndsWith n ext)) ++
            files.filter (fun n => strEndsWith n (strUpper ext))) acc
    ↔ x ∈ acc ∨ ∃ e ∈ exts, x ∈ files
        ∧ (strEndsWith x e = true ∨ strEndsWith x (strUpper e) = true)) := by
  intro exts
  induction exts with
  | nil => simp
  | cons e es ih =>
    intro acc x
    rw [List.foldl_cons, ih]
    simp only [List.mem_append, List.mem_filter, List.mem_cons]
    constructor
    · rintro (((hacc | ⟨hf, he⟩) | ⟨hf, he⟩) | ⟨g, hg, hf, he⟩)
      · exact Or.inl hacc
      · exact Or.inr ⟨e, Or.inl rfl, hf, Or.inl he⟩
      · exact Or.inr ⟨e, Or.inl rfl, hf, Or.inr he⟩
      · exact Or.inr ⟨g, Or.inr hg, hf, he⟩
    · rintro (hacc | ⟨g, (rfl | hg), hf, he⟩)
      · exact Or.inl (Or.inl (Or.inl hacc))
      · rcases he with he | he
        · exact Or.inl (Or.inl (Or.inr ⟨hf, he⟩))
        · exact Or.inl (Or.inr ⟨hf, he⟩)
      · exact Or.inr ⟨g, hg, hf, he⟩

/-- Claim C9 (amended): discovery enumerates exactly the directory entries
whose name ends in an allow-listed extension spelled all-lowercase or
all-uppercase; mixed-case variants such as `.Jpg` are not discovered
(`C9_counterexample`). -/
theorem C9_discovery (files : List String) (x : String) :
    x ∈ discoverImages files
  ↔ x ∈ files ∧ ∃ e ∈ SUPPORTED_FORMATS,
      (strEndsWith x e = true ∨ strEndsWith x (strUpper e) = true) := by
  rw [discoverImages, mem_discover_foldl]
  simp only [List.not_mem_nil, false_or]
  constructor
  · rintro ⟨e, he, hf, hend⟩
    exact ⟨hf, e, he, hend⟩
  · rintro ⟨hf, e, he, hend⟩
    exact ⟨e, he, hf, hend⟩

/-! ## Claim C8: unknown-mode error -/

/-- Claim C8: any mode outside fit/fill/stretch/pad makes `resize_image`
return `success = False` with the error message identifying the unknown mode
(`str(ValueError(f"Unknown mode: {mode}"))`), producing no geometry/size —
no silent fallback to a default mode. -/
theorem C8_unknown_mode (w h : Nat) (rw rh : Option Nat) (mode : String)
    (hw : 0 < w) (hh : 0 < h)
    (hm : mode ∉ (["fit", "fill", "stretch", "pad"] : List String)) :
    resize_image w h rw rh mode
      = ⟨false, some ("Unknown mode: " ++ mode), none⟩ := by
  simp only [List.mem_cons, List.not_mem_nil, or_false, not_or] at hm
  obtain ⟨m1, m2, m3, m4⟩ := hm
  simp [resize_image, resizeGeometry, m1, m2, m3, m4]

/-- Witness instantiating `C8_unknown_mode` at mode "crop". -/
theorem C8_unknown_mode_witness :
    ((0 : ℕ) < 100 ∧ (0 : ℕ) < 50
      ∧ "crop" ∉ (["fit", "fill", "stretch", "pad"] : List String))
  ∧ resize_image 100 50 (some 10) none "crop"
      = ⟨false, some ("Unknown mode: " ++ "crop"), none⟩ :=
  ⟨⟨by decide, by decide, by decide⟩,
    C8_unknown_mode 100 50 (some 10) none "crop" (by decide) (by decide) (by decide)⟩

/-! ## Claims C3 and C10: fill-mode crop geometry -/

theorem int_ediv_natCast (m n : ℕ) : Int.ediv (m : ℤ) (n : ℤ) = ((m / n : ℕ) : ℤ) := rfl

theorem int_fdiv_natCast (m n : ℕ) : Int.fdiv (m : ℤ) (n : ℤ) = ((m / n : ℕ) : ℤ) := by
  cases m with
  | zero => simp [Int.fdiv]
  | succ k => rfl

theorem int_fdiv_two_natCast (m : ℕ) : Int.fdiv (m : ℤ) 2 = ((m / 2 : ℕ) : ℤ) :=
  int_fdiv_natCast m 2

/-- In the wider-than-target branch, the fill crop box is the Nat-level
centered window: the whole Int computation stays nonnegative. -/
theorem fillPlan_eq_wide (w h tw th : Nat) (hth : 0 < th) (hbr : tw * h < w * th) :
    fillPlan w h tw th
      = (⟨(((w - h * tw / th) / 2 : ℕ) : ℤ), 0,
          (((w - h * tw / th) / 2 : ℕ) : ℤ) + ((h * tw / th : ℕ) : ℤ), (h : ℤ)⟩,
        (tw, th)) := by
  have hbrz : (tw : ℤ) * h < (w : ℤ) * th := by exact_mod_cast hbr
  have hnw : h * tw / th < w := by
    rw [Nat.div_lt_iff_lt_mul hth]
    calc h * tw = tw * h := Nat.mul_comm h tw
    _ < w * th := hbr
  rw [fillPlan, if_pos hbrz]
  have e1 : (h : ℤ) * tw = ((h * tw : ℕ) : ℤ) := by push_cast; ring
  have e2 : (w : ℤ) - ((h * tw / th : ℕ) : ℤ) = ((w - h * tw / th : ℕ) : ℤ) := by
    rw [Nat.cast_sub (le_of_lt hnw)]
  simp only [e1, int_ediv_natCast, e2, int_fdiv_two_natCast]

/-- In the taller-than-target (or equal-aspect) branch, the fill crop box is
the Nat-level centered window. -/
theorem fillPlan_eq_tall (w h tw th : Nat) (htw : 0 < tw) (hbr : ¬ tw * h < w * th) :
    fillPlan w h tw th
      = (⟨0, (((h - w * th / tw) / 2 : ℕ) : ℤ), (w : ℤ),
          (((h - w * th / tw) / 2 : ℕ) : ℤ) + ((w * th / tw : ℕ) : ℤ)⟩,
        (tw, th)) := by
  have hbrz : ¬ (tw : ℤ) * h < (w : ℤ) * th := by exact_mod_cast hbr
  have hnh : w * th / tw ≤ h := by
    have hle : w * th ≤ tw * h := Nat.le_of_not_lt hbr
    calc w * th / tw ≤ tw * h / tw := Nat.div_le_div_right hle
    _ = h := by rw [Nat.mul_comm tw h, Nat.mul_div_cancel h htw]
  rw [fillPlan, if_neg hbrz]
  have e1 : (w : ℤ) * th = ((w * th : ℕ) : ℤ) := by push_cast; ring
  have e2 : (h : ℤ) - ((w * th / tw : ℕ) : ℤ) = ((h - w * th / tw : ℕ) : ℤ) := by
    rw [Nat.cast_sub hnh]
  simp only [e1, int_ediv_natCast, e2, int_fdiv_two_natCast]

/-- Claim C3: for positive natural and target sizes, fill mode resamples the
crop to exactly the target size; when the source aspect exceeds the target
aspect (`w/h > tw/th`, i.e. `tw*h < w*th`) it crops the full height to width
`⌊h * tw / th⌋` (the floor of natural_height * target_aspect) at horizontal
offset `⌊(w - new_width) / 2⌋`, otherwise it crops the full width to height
`⌊w * th / tw⌋` at vertical offset `⌊(h - new_height) / 2⌋`; in both cases the
two margins differ by at most 1 px, i.e. the crop is centered. -/
theorem C3_fill_geometry (w h tw th : Nat) (hw : 0 < w) (hh : 0 < h)
    (htw : 0 < tw) (hth : 0 < th) :
    (fillPlan w h tw th).2 = (tw, th)
  ∧ (tw * h < w * th →
      (fillPlan w h tw th).1 = ⟨(((w - h * tw / th) / 2 : ℕ) : ℤ), 0,
          (((w - h * tw / th) / 2 : ℕ) : ℤ) + ((h * tw / th : ℕ) : ℤ), (h : ℤ)⟩
      ∧ |(fillPlan w h tw th).1.left - ((w : ℤ) - (fillPlan w h tw th).1.right)| ≤ 1)
  ∧ (¬ tw * h < w * th →
      (fillPlan w h tw th).1 = ⟨0, (((h - w * th / tw) / 2 : ℕ) : ℤ), (w : ℤ),
          (((h - w * th / tw) / 2 : ℕ) : ℤ) + ((w * th / tw : ℕ) : ℤ)⟩
      ∧ |(fillPlan w h tw th).1.top - ((h : ℤ) - (fillPlan w h tw th).1.bottom)| ≤ 1) := by
  refine ⟨?_, ?_, ?_⟩
  · by_cases hbr : tw * h < w * th
    · rw [fillPlan_eq_wide w h tw th hth hbr]
    · rw [fillPlan_eq_tall w h tw th htw hbr]
  · intro hbr
    have hnw : h * tw / th < w := by
      rw [Nat.div_lt_iff_lt_mul hth]
      calc h * tw = tw * h := Nat.mul_comm h tw
      _ < w * th := hbr
    rw [fillPlan_eq_wide w h tw th hth hbr]
    refine ⟨rfl, ?_⟩
    dsimp only
    rw [abs_le]
    generalize h * tw / th = n at hnw ⊢
    constructor <;> omega
  · intro hbr
    have hnh : w * th / tw ≤ h := by
      have hle : w * th ≤ tw * h := Nat.le_of_not_lt hbr
      calc w * th / tw ≤ tw * h / tw := Nat.div_le_div_right hle
      _ = h := by rw [Nat.mul_comm tw h, Nat.mul_div_cancel h htw]
    rw [fillPlan_eq_tall w h tw th htw hbr]
    refine ⟨rfl, ?_⟩
    dsimp only
    rw [abs_le]
    generalize w * th / tw = n at hnh ⊢
    constructor <;> omega

/-- Witness instantiating `C3_fill_geometry` at natural (4000, 3000),
target (1000, 1000). -/
theorem C3_fill_geometry_witness :
    ((0 : ℕ) < 4000 ∧ (0 : ℕ) < 3000 ∧ (0 : ℕ) < 1000 ∧ (0 : ℕ) < 1000)
  ∧ ((fillPlan 4000 3000 1000 1000).2 = (1000, 1000)
    ∧ (1000 * 3000 < 4000 * 1000 →
        (fillPlan 4000 3000 1000 1000).1
            = ⟨(((4000 - 3000 * 1000 / 1000) / 2 : ℕ) : ℤ), 0,
                (((4000 - 3000 * 1000 / 1000) / 2 : ℕ) : ℤ)
                  + ((3000 * 1000 / 1000 : ℕ) : ℤ), (3000 : ℤ)⟩
        ∧ |(fillPlan 4000 3000 1000 1000).1.left
            - ((4000 : ℤ) - (fillPlan 4000 3000 1000 1000).1.right)| ≤ 1)
    ∧ (¬ 1000 * 3000 < 4000 * 1000 →
        (fillPlan 4000 3000 1000 1000).1
            = ⟨0, (((3000 - 4000 * 1000 / 1000) / 2 : ℕ) : ℤ), (4000 : ℤ),
                (((3000 - 4000 * 1000 / 1000) / 2 : ℕ) : ℤ)
                  + ((4000 * 1000 / 1000 : ℕ) : ℤ)⟩
        ∧ |(fillPlan 4000 3000 1000 1000).1.top
            - ((3000 : ℤ) - (fillPlan 4000 3000 1000 1000).1.bottom)| ≤ 1)) :=
  ⟨⟨by decide, by decide, by decide, by decide⟩,
    C3_fill_geometry 4000 3000 1000 1000 (by decide) (by decide) (by decide) (by decide)⟩

/-- Claim C10: for positive natural and target sizes, the fill-mode crop box
always lies within the source image: left and top are at least 0, right is at
most the natural width and bottom at most the natural height. -/
theorem C10_crop_in_bounds (w h tw th : Nat) (hw : 0 < w) (hh : 0 < h)
    (htw : 0 < tw) (hth : 0 < th) :
    0 ≤ (fillPlan w h tw th).1.left ∧ 0 ≤ (fillPlan w h tw th).1.top
  ∧ (fillPlan w h tw th).1.right ≤ (w : ℤ)
  ∧ (fillPlan w h tw th).1.bottom ≤ (h : ℤ) := by
  by_cases hbr : tw * h < w * th
  · have hnw : h * tw / th < w := by
      rw [Nat.div_lt_iff_lt_mul hth]
      calc h * tw = tw * h := Nat.mul_comm h tw
      _ < w * th := hbr
    rw [fillPlan_eq_wide w h tw th hth hbr]
    refine ⟨by positivity, by simp, ?_, le_refl _⟩
    dsimp only
    generalize h * tw / th = n at hnw ⊢
    omega
  · have hnh : w * th / tw ≤ h := by
      have hle : w * th ≤ tw * h := Nat.le_of_not_lt hbr
      calc w * th / tw ≤ tw * h / tw := Nat.div_le_div_right hle
      _ = h := by rw [Nat.mul_comm tw h, Nat.mul_div_cancel h htw]
    rw [fillPlan_eq_tall w h tw th htw hbr]
    refine ⟨by simp, by positivity, le_refl _, ?_⟩
    dsimp only
    generalize w * th / tw = n at hnh ⊢
    omega

/-- Witness instantiating `C10_crop_in_bounds` at natural (3000, 4000),
target (1000, 1000). -/
theorem C10_crop_in_bounds_witness :
    ((0 : ℕ) < 3000 ∧ (0 : ℕ) < 4000 ∧ (0 : ℕ) < 1000 ∧ (0 : ℕ) < 1000)
  ∧ (0 ≤ (fillPlan 3000 4000 1000 1000).1.left
    ∧ 0 ≤ (fillPlan 3000 4000 1000 1000).1.top
    ∧ (fillPlan 3000 4000 1000 1000).1.right ≤ (3000 : ℤ)
    ∧ (fillPlan 3000 4000 1000 1000).1.bottom ≤ (4000 : ℤ)) :=
  ⟨⟨by decide, by decide, by decide, by decide⟩,
    C10_crop_in_bounds 3000 4000 1000 1000 (by decide) (by decide) (by decide) (by decide)⟩

/-! ## Claim C2: fit-mode properties -/

theorem round_aspect_cases (t : ℚ) (k : ℤ → ℚ) :
    round_aspect t k = max ⌊t⌋ 1 ∨ round_aspect t k = max ⌈t⌉ 1 := by
  rw [round_aspect]
  by_cases hk : k ⌊t⌋ ≤ k ⌈t⌉
  · exact Or.inl (by rw [if_pos hk])
  · exact Or.inr (by rw [if_neg hk])

theorem one_le_round_aspect (t : ℚ) (k : ℤ → ℚ) : 1 ≤ round_aspect t k :=
  le_max_right _ _

theorem round_aspect_le (t : ℚ) (k : ℤ → ℚ) (n : ℤ) (h1 : 1 ≤ n) (h2 : t ≤ (n : ℚ)) :
    round_aspect t k ≤ n := by
  have hceil : ⌈t⌉ ≤ n := Int.ceil_le.mpr h2
  have hfloor : ⌊t⌋ ≤ n := le_trans (Int.floor_le_ceil t) hceil
  rcases round_aspect_cases t k with h | h <;> rw [h]
  · exact max_le hfloor h1
  · exact max_le hceil h1

/-- The `round_aspect` result is within one pixel of the exact value, for any
positive exact value (including the clamp-to-1 case). -/
theorem abs_round_aspect_sub_lt (t : ℚ) (k : ℤ → ℚ) (ht : 0 < t) :
    |((round_aspect t k : ℤ) : ℚ) - t| < 1 := by
  rcases round_aspect_cases t k with h | h
  · rw [h]
    by_cases hf : 1 ≤ ⌊t⌋
    · rw [max_eq_left hf, abs_sub_lt_iff]
      have h1 := Int.floor_le t
      have h2 := Int.lt_floor_add_one t
      constructor <;> linarith
    · have hf0 : ⌊t⌋ ≤ 0 := by omega
      rw [max_eq_right (by omega : ⌊t⌋ ≤ 1), abs_sub_lt_iff]
      have h2 := Int.lt_floor_add_one t
      have hc : ((⌊t⌋ : ℤ) : ℚ) ≤ 0 := by exact_mod_cast hf0
      push_cast
      constructor <;> linarith
  · rw [h]
    have hc : 1 ≤ ⌈t⌉ := Int.ceil_pos.mpr ht
    rw [max_eq_left hc, abs_sub_lt_iff]
    have h1 := Int.ceil_lt_add_one t
    have h2 := Int.le_ceil t
    constructor <;> linarith

theorem fitSize_eq_wide (w h tx ty : Nat) (hno : ¬(w ≤ tx ∧ h ≤ ty))
    (hbr : (w : ℚ) / (h : ℚ) ≤ (tx : ℚ) / (ty : ℚ)) :
    fitSize w h tx ty
      = ((round_aspect ((ty : ℚ) * ((w : ℚ) / (h : ℚ)))
          (fun n => |(w : ℚ) / (h : ℚ) - (n : ℚ) / ((w : ℚ) / (h : ℚ))|)).toNat, ty) := by
  rw [fitSize, if_neg hno]
  dsimp only
  rw [if_pos hbr]

theorem fitSize_eq_tall (w h tx ty : Nat) (hno : ¬(w ≤ tx ∧ h ≤ ty))
    (hbr : ¬ (w : ℚ) / (h : ℚ) ≤ (tx : ℚ) / (ty : ℚ)) :
    fitSize w h tx ty
      = (tx, (round_aspect ((tx : ℚ) / ((w : ℚ) / (h : ℚ)))
          (fun n => if n = 0 then 0
            else |(w : ℚ) / (h : ℚ) - (tx : ℚ) / (n : ℚ)|)).toNat) := by
  rw [fitSize, if_neg hno]
  dsimp only
  rw [if_neg hbr]

/-- Claim C2 (amended): for positive sizes, fit never exceeds the target in
either dimension, never upscales (result ≤ natural size in both dimensions);
when the image already fits inside the target it is returned unchanged — in
which case both result dimensions may be far from the target — and otherwise
exactly one target dimension is hit exactly; the aspect ratio is preserved
within one rounding pixel: `|result_w * h - result_h * w| < max w h`. -/
theorem C2_fit_props (w h tx ty : Nat) (hw : 0 < w) (hh : 0 < h)
    (htx : 0 < tx) (hty : 0 < ty) :
    (fitSize w h tx ty).1 ≤ tx ∧ (fitSize w h tx ty).2 ≤ ty
  ∧ (fitSize w h tx ty).1 ≤ w ∧ (fitSize w h tx ty).2 ≤ h
  ∧ ((w ≤ tx ∧ h ≤ ty) → fitSize w h tx ty = (w, h))
  ∧ (¬(w ≤ tx ∧ h ≤ ty) → (fitSize w h tx ty).1 = tx ∨ (fitSize w h tx ty).2 = ty)
  ∧ |((fitSize w h tx ty).1 : ℤ) * h - ((fitSize w h tx ty).2 : ℤ) * w|
      < (max w h : ℤ) := by
  have hwq : (0 : ℚ) < w := by exact_mod_cast hw
  have hhq : (0 : ℚ) < h := by exact_mod_cast hh
  have htxq : (0 : ℚ) < tx := by exact_mod_cast htx
  have htyq : (0 : ℚ) < ty := by exact_mod_cast hty
  by_cases hno : w ≤ tx ∧ h ≤ ty
  · have hfs : fitSize w h tx ty = (w, h) := by rw [fitSize, if_pos hno]
    rw [hfs]
    refine ⟨hno.1, hno.2, le_refl w, le_refl h, fun _ => rfl,
      fun hc => absurd hno hc, ?_⟩
    have e : ((w : ℤ) * h - (h : ℤ) * w) = 0 := by ring
    rw [e, abs_zero]
    have : (0 : ℤ) < w := by exact_mod_cast hw
    calc (0 : ℤ) < (w : ℤ) := this
    _ ≤ (max w h : ℤ) := by exact_mod_cast Nat.le_max_left w h
  · by_cases hbr : (w : ℚ) / (h : ℚ) ≤ (tx : ℚ) / (ty : ℚ)
    · -- target at least as wide as the source aspect: height is pinned to ty
      rw [fitSize_eq_wide w h tx ty hno hbr]
      have hcross : (w : ℚ) * ty ≤ (tx : ℚ) * h := (div_le_div_iff₀ hhq htyq).mp hbr
      have hcrossN : w * ty ≤ tx * h := by exact_mod_cast hcross
      have hty_le_h : ty ≤ h := by
        by_contra hlt
        push_neg at hlt
        have htxw : tx < w := by
          by_contra hge
          push_neg at hge
          exact hno ⟨hge, le_of_lt hlt⟩
        have e1 : tx * h + h ≤ w * h := by
          have h1 : tx + 1 ≤ w := htxw
          calc tx * h + h = (tx + 1) * h := by ring
          _ ≤ w * h := Nat.mul_le_mul_right h h1
        have e2 : w * h + w ≤ w * ty := by
          have h2 : h + 1 ≤ ty := hlt
          calc w * h + w = w * (h + 1) := by ring
          _ ≤ w * ty := Nat.mul_le_mul_left w h2
        omega
      set t : ℚ := (ty : ℚ) * ((w : ℚ) / (h : ℚ)) with hts
      set k : ℤ → ℚ := fun n => |(w : ℚ) / (h : ℚ) - (n : ℚ) / ((w : ℚ) / (h : ℚ))|
        with hks
      have htval : t = (ty : ℚ) * w / h := by rw [hts]; ring
      have htpos : 0 < t := by rw [htval]; positivity
      have ht_le_tx : t ≤ (tx : ℚ) := by
        rw [htval, div_le_iff₀ hhq]
        calc (ty : ℚ) * w = (w : ℚ) * ty := by ring
        _ ≤ (tx : ℚ) * h := hcross
      have ht_le_w : t ≤ (w : ℚ) := by
        rw [htval, div_le_iff₀ hhq]
        have : (ty : ℚ) ≤ h := by exact_mod_cast hty_le_h
        calc (ty : ℚ) * w ≤ (h : ℚ) * w := by
              exact mul_le_mul_of_nonneg_right this (le_of_lt hwq)
        _ = (w : ℚ) * h := by ring
      have hx1 : 1 ≤ round_aspect t k := one_le_round_aspect t k
      have hx_tx : round_aspect t k ≤ (tx : ℤ) :=
        round_aspect_le t k tx (by exact_mod_cast htx) (by push_cast; exact ht_le_tx)
      have hx_w : round_aspect t k ≤ (w : ℤ) :=
        round_aspect_le t k w (by exact_mod_cast hw) (by push_cast; exact ht_le_w)
      have habs := abs_round_aspect_sub_lt t k htpos
      have htn : ((round_aspect t k).toNat : ℤ) = round_aspect t k :=
        Int.toNat_of_nonneg (by omega)
      refine ⟨?_, le_refl ty, ?_, hty_le_h, fun hc => absurd hc hno, fun _ => Or.inr rfl, ?_⟩
      · exact Int.toNat_le.mpr hx_tx
      · exact Int.toNat_le.mpr hx_w
      · have hq : |((round_aspect t k : ℤ) : ℚ) * h - (ty : ℚ) * w| < (h : ℚ) := by
          have e : ((round_aspect t k : ℤ) : ℚ) * h - (ty : ℚ) * w
              = (((round_aspect t k : ℤ) : ℚ) - t) * h := by
            rw [htval]
            field_simp
          rw [e, abs_mul, abs_of_pos hhq]
          calc |((round_aspect t k : ℤ) : ℚ) - t| * h < 1 * h :=
                mul_lt_mul_of_pos_right habs hhq
          _ = (h : ℚ) := one_mul _
        have hz : |(round_aspect t k) * (h : ℤ) - (ty : ℤ) * w| < (h : ℤ) := by
          exact_mod_cast hq
        rw [htn]
        calc |(round_aspect t k) * (h : ℤ) - (ty : ℤ) * w| < (h : ℤ) := hz
        _ ≤ (max w h : ℤ) := by exact_mod_cast Nat.le_max_right w h
    · -- source aspect wider than target: width is pinned to tx
      rw [fitSize_eq_tall w h tx ty hno hbr]
      push_neg at hbr
      have hcross : (tx : ℚ) * h < (w : ℚ) * ty := (div_lt_div_iff₀ htyq hhq).mp hbr
      have hcrossN : tx * h < w * ty := by exact_mod_cast hcross
      have htx_le_w : tx ≤ w := by
        by_contra hlt
        push_neg at hlt
        have htyh : ty < h := by
          by_contra hge
          push_neg at hge
          exact hno ⟨le_of_lt hlt, hge⟩
        have e1 : w * h + h ≤ tx * h := by
          have h1 : w + 1 ≤ tx := hlt
          calc w * h + h = (w + 1) * h := by ring
          _ ≤ tx * h := Nat.mul_le_mul_right h h1
        have e2 : w * ty + w ≤ w * h := by
          have h2 : ty + 1 ≤ h := htyh
          calc w * ty + w = w * (ty + 1) := by ring
          _ ≤ w * h := Nat.mul_le_mul_left w h2
        omega
      set t : ℚ := (tx : ℚ) / ((w : ℚ) / (h : ℚ)) with hts
      set k : ℤ → ℚ := fun n => if n = 0 then 0
        else |(w : ℚ) / (h : ℚ) - (tx : ℚ) / (n : ℚ)| with hks
      have htval : t = (tx : ℚ) * h / w := by
        rw [hts, div_div_eq_mul_div]
      have htpos : 0 < t := by rw [htval]; positivity
      have ht_le_ty : t ≤ (ty : ℚ) := by
        rw [htval, div_le_iff₀ hwq]
        calc (tx : ℚ) * h ≤ (w : ℚ) * ty := le_of_lt hcross
        _ = (ty : ℚ) * w := by ring
      have ht_le_h : t ≤ (h : ℚ) := by
        rw [htval, div_le_iff₀ hwq]
        have : (tx : ℚ) ≤ w := by exact_mod_cast htx_le_w
        calc (tx : ℚ) * h ≤ (w : ℚ) * h := by
              exact mul_le_mul_of_nonneg_right this (le_of_lt hhq)
        _ = (h : ℚ) * w := by ring
      have hy1 : 1 ≤ round_aspect t k := one_le_round_aspect t k
      have hy_ty : round_aspect t k ≤ (ty : ℤ) :=
        round_aspect_le t k ty (by exact_mod_cast hty) (by push_cast; exact ht_le_ty)
      have hy_h : round_aspect t k ≤ (h : ℤ) :=
        round_aspect_le t k h (by exact_mod_cast hh) (by push_cast; exact ht_le_h)
      have habs := abs_round_aspect_sub_lt t k htpos
      have htn : ((round_aspect t k).toNat : ℤ) = round_aspect t k :=
        Int.toNat_of_nonneg (by omega)
      refine ⟨le_refl tx, ?_, htx_le_w, ?_, fun hc => absurd hc hno, fun _ => Or.inl rfl, ?_⟩
      · exact Int.toNat_le.mpr hy_ty
      · exact Int.toNat_le.mpr hy_h
      · have hq : |(tx : ℚ) * h - ((round_aspect t k : ℤ) : ℚ) * w| < (w : ℚ) := by
          have e : (tx : ℚ) * h - ((round_aspect t k : ℤ) : ℚ) * w
              = (t - ((round_aspect t k : ℤ) : ℚ)) * w := by
            rw [htval]
            field_simp
            ring
          rw [e, abs_mul, abs_of_pos hwq, abs_sub_comm]
          calc |((round_aspect t k : ℤ) : ℚ) - t| * w < 1 * w :=
                mul_lt_mul_of_pos_right habs hwq
          _ = (w : ℚ) := one_mul _
        have hz : |(tx : ℤ) * h - (round_aspect t k) * (w : ℤ)| < (w : ℤ) := by
          exact_mod_cast hq
        rw [htn]
        calc |(tx : ℤ) * h - (round_aspect t k) * (w : ℤ)| < (w : ℤ) := hz
        _ ≤ (max w h : ℤ) := by exact_mod_cast Nat.le_max_left w h

/-- Witness instantiating `C2_fit_props` at natural (4000, 3000),
target (1000, 750). -/
theorem C2_fit_props_witness :
    ((0 : ℕ) < 4000 ∧ (0 : ℕ) < 3000 ∧ (0 : ℕ) < 1000 ∧ (0 : ℕ) < 750)
  ∧ ((fitSize 4000 3000 1000 750).1 ≤ 1000 ∧ (fitSize 4000 3000 1000 750).2 ≤ 750
    ∧ (fitSize 4000 3000 1000 750).1 ≤ 4000 ∧ (fitSize 4000 3000 1000 750).2 ≤ 3000
    ∧ ((4000 ≤ 1000 ∧ 3000 ≤ 750) → fitSize 4000 3000 1000 750 = (4000, 3000))
    ∧ (¬(4000 ≤ 1000 ∧ 3000 ≤ 750) →
        (fitSize 4000 3000 1000 750).1 = 1000 ∨ (fitSize 4000 3000 1000 750).2 = 750)
    ∧ |((fitSize 4000 3000 1000 750).1 : ℤ) * 3000
        - ((fitSize 4000 3000 1000 750).2 : ℤ) * 4000| < (max 4000 3000 : ℤ)) :=
  ⟨⟨by decide, by decide, by decide, by decide⟩,
    C2_fit_props 4000 3000 1000 750 (by decide) (by decide) (by decide) (by decide)⟩

/-- Claim C2 is false as stated: a 10 × 10 image with fit target 1000 × 1000
is returned unchanged (fit never upscales), so neither result dimension is
within 1 px of the target's corresponding dimension. -/
theorem C2_counterexample :
    fitSize 10 10 1000 1000 = (10, 10)
  ∧ ¬(|((fitSize 10 10 1000 1000).1 : ℤ) - 1000| ≤ 1
      ∨ |((fitSize 10 10 1000 1000).2 : ℤ) - 1000| ≤ 1) := by
  have h : fitSize 10 10 1000 1000 = (10, 10) := by
    rw [fitSize, if_pos (by decide : (10 : ℕ) ≤ 1000 ∧ (10 : ℕ) ≤ 1000)]
  refine ⟨h, ?_⟩
  rw [h]
  decide
